import Mathlib

/-!
Verification of the connection-specification parser and linker of
`src/wireviz/wireviz.py` (function `parse`, connections section,
lines 80-183), as a shallow embedding in Lean.

A document provides a `connectors` mapping (we keep, per id, the
truthiness of its `autogenerate` attribute, which is the only attribute
the connections loop reads), a `cables` mapping (only key membership is
read), and a list of connection rows.  Each row item is a bare scalar
id, a list of ids, or a (YAML) one-key mapping from an id to a pin
specification.  Python runtime errors that the loop can raise
(IndexError on empty rows/lists/dicts/slots, KeyError on the
`yaml_data['connectors'][item]` lookup in the populate step) are
modelled as explicit error values alongside the `raise Exception(...)`
validation errors.
-/

namespace Wireviz

/-- Modelled from the spec: the pin-range expander `expand` lives in
`wireviz.wv_helper`, which is not part of src/.  Following §4.1 of the
spec, a pin specification is a comma-combination of terms, each a
single pin label or an inclusive range; expansion preserves authoring
order (a descending range expands downwards) and allows repeats.  Pin
labels are modelled as naturals. -/
inductive PinTerm where
  | single (p : Nat)
  | range (lo hi : Nat)
  deriving DecidableEq

/-- Modelled from the spec: expansion of one pin term (inclusive range,
order preserved). -/
def expandTerm : PinTerm → List Nat
  | .single p => [p]
  | .range lo hi =>
      if lo ≤ hi then List.range' lo (hi + 1 - lo)
      else (List.range' hi (lo + 1 - hi)).reverse

/-- Modelled from the spec: `expand` of `wireviz.wv_helper` (absent
from src/), concatenating the expansions of the terms in order. -/
def expand (spec : List PinTerm) : List Nat :=
  (spec.map expandTerm).flatten

/-- One raw entry of a connection row (`connection` item in `parse`):
a bare string, a list of strings, or a YAML one-key-intended mapping
(modelled as its entry list; the code itself checks the key count). -/
inductive Item where
  | scalar (id : String)
  | list (ids : List String)
  | dict (es : List (String × List PinTerm))
  deriving DecidableEq

/-- The deserialized yaml document as the connections loop sees it:
`yaml_data['connectors']` (id ↦ truthiness of `autogenerate`),
`yaml_data['cables']` (keys only) and `yaml_data['connections']`. -/
structure Doc where
  connectors : List (String × Bool)
  cables : List String
  connections : List (List Item)
  deriving DecidableEq

/-- Errors raised by the connections loop of `parse`: the explicit
`raise Exception(...)` calls plus the Python runtime errors reachable
from it. -/
inductive Err where
  /-- Python IndexError: `connection[0]`, `first_item[0]`,
  `list(first_item.keys())[0]`, `list(item.keys())[0]`, `item[0][0]`,
  `connection_list[i±1][j]` on a missing index. -/
  | indexError
  /-- Python KeyError: `yaml_data['connectors'][item]` in the populate
  step when `item` is not a connectors key. -/
  | keyError (id : String)
  /-- `raise Exception('First item not found anywhere.')`. -/
  | firstItemNotFound
  /-- `raise Exception(f'{subitem} is not in {expected_section}')`,
  recording the offending id and the expected section index
  (0 = connectors, 1 = cables). -/
  | notInSection (id : String) (idx : Nat)
  /-- `raise Exception('Dicts may contain only one key here!')`. -/
  | multiKeyDict
  /-- `raise Exception('All lists and dict lists must be the same length!')`. -/
  | cardinalityMismatch
  /-- `raise Exception('No item revealed the number of connections to make!')`. -/
  | noCardinality
  deriving DecidableEq

/-- Membership test `x in yaml_data[alternating_sections[idx]]` with
`alternating_sections = ['connectors', 'cables']`. -/
def sectionMem (d : Doc) (idx : Nat) (id : String) : Bool :=
  if idx = 0 then d.connectors.any (fun kv => kv.1 == id)
  else d.cables.any (fun c => c == id)

/-- Lines 83-89: find the first component, potentially nested inside a
list or dict (`first_item[0]` / `list(first_item.keys())[0]`; empty
list or dict raises IndexError). -/
def itemFirstId : Item → Except Err String
  | .scalar s => .ok s
  | .list ids =>
      match ids.head? with
      | some s => .ok s
      | none => .error .indexError
  | .dict es =>
      match es.head? with
      | some kv => .ok kv.1
      | none => .error .indexError

/-- Lines 92-98: check which section the first item belongs to;
`connectors` is tried before `cables`, and the for-else raises
`'First item not found anywhere.'` when neither contains it. -/
def inferStart (d : Doc) (id : String) : Except Err Nat :=
  if sectionMem d 0 id then .ok 0
  else if sectionMem d 1 id then .ok 1
  else .error .firstItemNotFound

/-- Lines 103-127, the validation loop: `ei` is the current
`expected_index` (flipped at the beginning of each iteration), `cnt`
the running `itemcount` (`none` = Python `None`).  Scalars only get a
membership check and `continue`; lists and one-key dicts additionally
reveal a count that must agree with the running one.  After the loop,
a still-unset `itemcount` raises. -/
def validateItems (d : Doc) : List Item → Nat → Option Nat → Except Err Nat
  | [], _, none => .error .noCardinality
  | [], _, some n => .ok n
  | .scalar s :: rest, ei, cnt =>
      if sectionMem d (1 - ei) s then validateItems d rest (1 - ei) cnt
      else .error (.notInSection s (1 - ei))
  | .list ids :: rest, ei, cnt =>
      match ids.find? (fun s => !(sectionMem d (1 - ei) s)) with
      | some bad => .error (.notInSection bad (1 - ei))
      | none =>
          match cnt with
          | some c =>
              if ids.length ≠ c then .error .cardinalityMismatch
              else validateItems d rest (1 - ei) (some ids.length)
          | none => validateItems d rest (1 - ei) (some ids.length)
  | .dict es :: rest, ei, cnt =>
      match es with
      | [(k, v)] =>
          if sectionMem d (1 - ei) k then
            match cnt with
            | some c =>
                if (expand v).length ≠ c then .error .cardinalityMismatch
                else validateItems d rest (1 - ei) (some (expand v).length)
            | none => validateItems d rest (1 - ei) (some (expand v).length)
          else .error (.notInSection k (1 - ei))
      | _ => .error .multiKeyDict

/-- Lines 82-127: role inference for the first item followed by the
validation loop.  `expected_index` starts as the flipped inferred
index (line 99) because the loop flips it back at the beginning of
every iteration. -/
def validateRow (d : Doc) (row : List Item) : Except Err Nat :=
  match row.head? with
  | none => .error .indexError
  | some first =>
      match itemFirstId first with
      | .error e => .error e
      | .ok fid =>
          match inferStart d fid with
          | .error e => .error e
          | .ok idx => validateItems d row (1 - idx) none

/-- The `autogenerate` attribute of `yaml_data['connectors'][id]`, or
`none` when `id` is not a connectors key (Python KeyError site). -/
def attribsOf (d : Doc) (id : String) : Option Bool :=
  (d.connectors.find? (fun kv => kv.1 == id)).map (fun kv => kv.2)

/-- Lookup in the `autogenerated_ids` dict, `.get(item, 0)` style. -/
def countGet (m : List (String × Nat)) (k : String) : Nat :=
  match m.find? (fun kv => kv.1 == k) with
  | some kv => kv.2
  | none => 0

/-- The autogenerated id `f'_{item}_{autogenerated_ids[item]}'`. -/
def autoId (t : String) (n : Nat) : String :=
  "_" ++ t ++ "_" ++ Nat.repr n

/-- State threaded through the populate step: the `autogenerated_ids`
dict (line 80; newest binding first) and, standing in for the external
`harness.add_connector(new_id, ...)` calls, the log of autogenerated
registrations in order, as (template, counter) pairs — the registered
id being `autoId template counter`. -/
structure ParseState where
  counts : List (String × Nat)
  autoLog : List (String × Nat)
  deriving DecidableEq

/-- One slot entry creation for a scalar repetition or a list element
(lines 135-141 / 146-152): look the id up in the connectors dict
(KeyError when absent); when its `autogenerate` is truthy, bump the
per-template counter, register the fresh `_<id>_<n>` instance and use
it at pin 1, otherwise use the id itself at pin 1. -/
def instOne (d : Doc) (st : ParseState) (id : String) :
    Except Err (ParseState × (String × Nat)) :=
  match attribsOf d id with
  | none => .error (.keyError id)
  | some auto =>
      if auto then
        .ok (⟨(id, countGet st.counts id + 1) :: st.counts,
              st.autoLog ++ [(id, countGet st.counts id + 1)]⟩,
             (autoId id (countGet st.counts id + 1), 1))
      else .ok (st, (id, 1))

/-- A normalized slot: the `sublist` built for one row item, an ordered
list of (component id, pin) pairs. -/
abbrev Slot := List (String × Nat)

/-- Lines 132-142: a scalar item is repeated `itemcount` times
(`for i in range(1, itemcount + 1)`). -/
def instRepeat (d : Doc) (id : String) : Nat → ParseState → Except Err (ParseState × Slot)
  | 0, st => .ok (st, [])
  | k + 1, st =>
      match instOne d st id with
      | .error e => .error e
      | .ok (st', pr) =>
          match instRepeat d id k st' with
          | .error e => .error e
          | .ok (st'', rest) => .ok (st'', pr :: rest)

/-- Lines 143-153: a list item contributes one entry per element. -/
def instList (d : Doc) : List String → ParseState → Except Err (ParseState × Slot)
  | [], st => .ok (st, [])
  | id :: ids, st =>
      match instOne d st id with
      | .error e => .error e
      | .ok (st', pr) =>
          match instList d ids st' with
          | .error e => .error e
          | .ok (st'', rest) => .ok (st'', pr :: rest)

/-- Lines 131-162: build the slot for one row item.  Dict items take
the first key and value (`list(item.keys())[0]`; empty dict raises
IndexError) and expand the pins; no autogeneration happens for them. -/
def populateItem (d : Doc) (n : Nat) (st : ParseState) : Item → Except Err (ParseState × Slot)
  | .scalar id => instRepeat d id n st
  | .list ids => instList d ids st
  | .dict es =>
      match es.head? with
      | none => .error .indexError
      | some (k, v) => .ok (st, (expand v).map (fun p => (k, p)))

/-- Lines 129-162: build `connection_list`, one slot per item. -/
def populateItems (d : Doc) (n : Nat) : List Item → ParseState → Except Err (ParseState × List Slot)
  | [], st => .ok (st, [])
  | it :: rest, st =>
      match populateItem d n st it with
      | .error e => .error e
      | .ok (st', slot) =>
          match populateItems d n rest st' with
          | .error e => .error e
          | .ok (st'', slots) => .ok (st'', slot :: slots)

/-- One emitted `harness.connect(...)` record (lines 169-183). -/
structure WireLink where
  from_name : Option String
  from_pin : Option Nat
  via_name : String
  via_pin : Nat
  to_name : Option String
  to_pin : Option Nat
  deriving DecidableEq

/-- `connection_list[i][j]`, when both indices are in range. -/
def pairAt (cl : List Slot) (i j : Nat) : Option (String × Nat) :=
  match cl.get? i with
  | some slot => slot.get? j
  | none => none

/-- An adjacent endpoint `connection_list[i][j]`; a missing index is a
Python IndexError. -/
def endpointAt (cl : List Slot) (i j : Nat) : Except Err (Option String × Option Nat) :=
  match pairAt cl i j with
  | some p => .ok (some p.1, some p.2)
  | none => .error .indexError

/-- Lines 169-183: build one link for position `j` of cable slot `i`:
`from` is `None` when the row starts with the cable, else
`connection_list[i-1][j]`; `to` is `None` when it ends with it, else
`connection_list[i+1][j]`. -/
def mkLink (cl : List Slot) (last i j : Nat) (via : String × Nat) : Except Err WireLink :=
  match (if i = 0 then .ok (none, none) else endpointAt cl (i - 1) j :
      Except Err (Option String × Option Nat)) with
  | .error e => .error e
  | .ok fr =>
      match (if i = last then .ok (none, none) else endpointAt cl (i + 1) j :
          Except Err (Option String × Option Nat)) with
      | .error e => .error e
      | .ok toP => .ok ⟨fr.1, fr.2, via.1, via.2, toP.1, toP.2⟩

/-- Lines 168-183: `for j, con in enumerate(item)`, one link per
position of the cable slot. -/
def emitPositions (cl : List Slot) (last i : Nat) : Nat → Slot → Except Err (List WireLink)
  | _, [] => .ok []
  | j, via :: rest =>
      match mkLink cl last i j via with
      | .error e => .error e
      | .ok l =>
          match emitPositions cl last i (j + 1) rest with
          | .error e => .error e
          | .ok ls => .ok (l :: ls)

/-- Lines 165-183 body for one slot: `id = item[0][0]` (IndexError on
an empty slot), then emit only `if id in harness.cables` — the cables
registered by the driver, i.e. the keys of `yaml_data['cables']`. -/
def slotStep (d : Doc) (cl : List Slot) (i : Nat) (slot : Slot) : Except Err (List WireLink) :=
  match slot.head? with
  | none => .error .indexError
  | some pr =>
      if sectionMem d 1 pr.1 then emitPositions cl (cl.length - 1) i 0 slot
      else .ok []

/-- Lines 164-183: walk `connection_list` with its running index. -/
def emitLoop (d : Doc) (cl : List Slot) : Nat → List Slot → Except Err (List WireLink)
  | _, [] => .ok []
  | i, slot :: rest =>
      match slotStep d cl i slot with
      | .error e => .error e
      | .ok ls =>
          match emitLoop d cl (i + 1) rest with
          | .error e => .error e
          | .ok more => .ok (ls ++ more)

/-- The link-emission pass over a fully built `connection_list`. -/
def emitAll (d : Doc) (cl : List Slot) : Except Err (List WireLink) :=
  emitLoop d cl 0 cl

/-- Lines 82-183: process one connection row — validate, populate,
emit.  On success returns the updated autogeneration state and the
links handed to `harness.connect`, in order. -/
def processRow (d : Doc) (st : ParseState) (row : List Item) :
    Except Err (ParseState × List WireLink) :=
  match validateRow d row with
  | .error e => .error e
  | .ok n =>
      match populateItems d n row st with
      | .error e => .error e
      | .ok (st', cl) =>
          match emitAll d cl with
          | .error e => .error e
          | .ok links => .ok (st', links)

/-- Lines 80-183: process the rows of `yaml_data['connections']` in
order, threading the shared `autogenerated_ids` state; the first
exception aborts the whole parse. -/
def processConnections (d : Doc) (st : ParseState) : List (List Item) →
    Except Err (ParseState × List WireLink)
  | [] => .ok (st, [])
  | row :: rest =>
      match processRow d st row with
      | .error e => .error e
      | .ok (st', links) =>
          match processConnections d st' rest with
          | .error e => .error e
          | .ok (st'', more) => .ok (st'', links ++ more)

/-- Whole-document connection processing, starting from the empty
`autogenerated_ids = {}` of line 80. -/
def parseDoc (d : Doc) : Except Err (ParseState × List WireLink) :=
  processConnections d ⟨[], []⟩ d.connections

/-- The `itemcount_new` a row item would reveal: list length or length
of the expanded pin sequence of a one-key mapping (lines 108, 115). -/
def contribution : Item → Option Nat
  | .scalar _ => none
  | .list ids => some ids.length
  | .dict [(_, v)] => some (expand v).length
  | .dict _ => none

/-- Whether a slot's component (`item[0][0]`) is a cable (line 167). -/
def isCableSlot (d : Doc) (slot : Slot) : Bool :=
  match slot.head? with
  | some pr => sectionMem d 1 pr.1
  | none => false

/-! ### Validation-loop analysis -/

/-- What a successful validation with final count `n` guarantees for
one item: lists have length `n`, dict items are one-key with an
expanded pin sequence of length `n`. -/
def itemSlotOk (n : Nat) : Item → Prop
  | .scalar _ => True
  | .list ids => ids.length = n
  | .dict es => ∃ k v, es = [(k, v)] ∧ (expand v).length = n

theorem validateItems_ok (d : Doc) :
    ∀ (items : List Item) (ei : Nat) (cnt : Option Nat) (n : Nat),
      validateItems d items ei cnt = .ok n →
      (∀ c, cnt = some c → c = n) ∧ ∀ it ∈ items, itemSlotOk n it := by
  intro items
  induction items with
  | nil =>
    intro ei cnt n h
    cases cnt with
    | none => simp [validateItems] at h
    | some c =>
      simp only [validateItems, Except.ok.injEq] at h
      subst h
      exact ⟨fun c' hc => by cases hc; rfl, by simp⟩
  | cons it rest ih =>
    intro ei cnt n h
    cases it with
    | scalar s =>
      simp only [validateItems] at h
      by_cases hs : sectionMem d (1 - ei) s
      · rw [if_pos hs] at h
        obtain ⟨h1, h2⟩ := ih (1 - ei) cnt n h
        refine ⟨h1, fun x hx => ?_⟩
        rcases List.mem_cons.mp hx with hx | hx
        · subst hx; trivial
        · exact h2 x hx
      · rw [if_neg hs] at h
        exact absurd h (by simp)
    | list ids =>
      simp only [validateItems] at h
      cases hf : ids.find? (fun s => !(sectionMem d (1 - ei) s)) with
      | some bad =>
        simp only [hf] at h
        exact absurd h (by simp)
      | none =>
        have tail : validateItems d rest (1 - ei) (some ids.length) = .ok n →
            (∀ c, cnt = some c → c = ids.length) →
            (∀ c, cnt = some c → c = n) ∧ ∀ it ∈ Item.list ids :: rest, itemSlotOk n it := by
          intro hrec hcnt
          obtain ⟨h1, h2⟩ := ih _ _ _ hrec
          have hn : ids.length = n := h1 _ rfl
          refine ⟨fun c hc => by rw [← hn]; exact hcnt c hc, fun x hx => ?_⟩
          rcases List.mem_cons.mp hx with hx | hx
          · subst hx; exact hn
          · exact h2 x hx
        cases cnt with
        | none =>
          simp only [hf] at h
          exact tail h (fun c hc => by cases hc)
        | some c =>
          simp only [hf] at h
          by_cases hl : ids.length ≠ c
          · rw [if_pos hl] at h
            exact absurd h (by simp)
          · rw [if_neg hl] at h
            exact tail h (fun c' hc => by cases hc; exact (not_not.mp hl).symm)
    | dict es =>
      match es with
      | [] =>
        simp only [validateItems] at h
        exact absurd h (by simp)
      | (k, v) :: (kv' :: tl) =>
        simp only [validateItems] at h
        exact absurd h (by simp)
      | [(k, v)] =>
        simp only [validateItems] at h
        have tail : validateItems d rest (1 - ei) (some (expand v).length) = .ok n →
            (∀ c, cnt = some c → c = (expand v).length) →
            (∀ c, cnt = some c → c = n) ∧
              ∀ it ∈ Item.dict [(k, v)] :: rest, itemSlotOk n it := by
          intro hrec hcnt
          obtain ⟨h1, h2⟩ := ih _ _ _ hrec
          have hn : (expand v).length = n := h1 _ rfl
          refine ⟨fun c hc => by rw [← hn]; exact hcnt c hc, fun x hx => ?_⟩
          rcases List.mem_cons.mp hx with hx | hx
          · subst hx; exact ⟨k, v, rfl, hn⟩
          · exact h2 x hx
        by_cases hk : sectionMem d (1 - ei) k
        · rw [if_pos hk] at h
          cases cnt with
          | none => exact tail h (fun c hc => by cases hc)
          | some c =>
            simp only [] at h
            by_cases hl : (expand v).length ≠ c
            · rw [if_pos hl] at h
              exact absurd h (by simp)
            · rw [if_neg hl] at h
              exact tail h (fun c' hc => by cases hc; exact (not_not.mp hl).symm)
        · rw [if_neg hk] at h
          exact absurd h (by simp)

/-- A successful validation forces every counting item's contribution
to equal the final count. -/
theorem contribution_eq {n : Nat} {it : Item} {m : Nat}
    (hok : itemSlotOk n it) (hc : contribution it = some m) : m = n := by
  cases it with
  | scalar s => simp [contribution] at hc
  | list ids =>
    simp only [contribution, Option.some.injEq] at hc
    simp only [itemSlotOk] at hok
    omega
  | dict es =>
    obtain ⟨k, v, hes, hlen⟩ := hok
    subst hes
    simp only [contribution, Option.some.injEq] at hc
    omega

/-- The result of `validateRow` is the result of the validation loop
for some inferred starting index, unless the row is empty or its first
item cannot be found or classified. -/
theorem validateRow_cases (d : Doc) (row : List Item) :
    (∃ idx, validateRow d row = validateItems d row (1 - idx) none) ∨
    validateRow d row = .error .indexError ∨
    validateRow d row = .error .firstItemNotFound := by
  cases hh : row.head? with
  | none => exact Or.inr (Or.inl (by simp [validateRow, hh]))
  | some first =>
    cases hf : itemFirstId first with
    | error e =>
      have he : e = Err.indexError := by
        cases first with
        | scalar s => simp [itemFirstId] at hf
        | list ids =>
          cases ids with
          | nil =>
            rw [show itemFirstId (Item.list []) = .error .indexError from rfl] at hf
            exact (Except.error.inj hf).symm
          | cons a tl => simp [itemFirstId] at hf
        | dict es =>
          cases es with
          | nil =>
            rw [show itemFirstId (Item.dict []) = .error .indexError from rfl] at hf
            exact (Except.error.inj hf).symm
          | cons kv tl => simp [itemFirstId] at hf
      subst he
      exact Or.inr (Or.inl (by simp [validateRow, hh, hf]))
    | ok fid =>
      by_cases h0 : sectionMem d 0 fid
      · exact Or.inl ⟨0, by simp [validateRow, hh, hf, inferStart, h0]⟩
      · by_cases h1 : sectionMem d 1 fid
        · exact Or.inl ⟨1, by simp [validateRow, hh, hf, inferStart, h0, h1]⟩
        · exact Or.inr (Or.inr (by simp [validateRow, hh, hf, inferStart, h0, h1]))

/-- A row consisting solely of bare scalars never sets the item count:
the loop ends with the no-cardinality error, unless a membership check
fails first. -/
theorem validateItems_all_scalar (d : Doc) :
    ∀ (items : List Item) (ei : Nat),
      (∀ it ∈ items, ∃ s, it = .scalar s) →
      validateItems d items ei none = .error .noCardinality ∨
      ∃ s k, validateItems d items ei none = .error (.notInSection s k) := by
  intro items
  induction items with
  | nil => intro ei _; left; rfl
  | cons it rest ih =>
    intro ei hall
    obtain ⟨s, hs⟩ := hall it (List.mem_cons_self _ _)
    subst hs
    simp only [validateItems]
    by_cases hmem : sectionMem d (1 - ei) s
    · rw [if_pos hmem]
      exact ih (1 - ei) (fun x hx => hall x (List.mem_cons_of_mem _ hx))
    · rw [if_neg hmem]
      exact Or.inr ⟨s, 1 - ei, rfl⟩

/-- Classification of validation-loop failures: only the four
row-validation errors occur, and the no-cardinality error occurs only
when the count was never set, i.e. when every item of the row is a
bare scalar. -/
theorem validateItems_error_cases (d : Doc) :
    ∀ (items : List Item) (ei : Nat) (cnt : Option Nat) (e : Err),
      validateItems d items ei cnt = .error e →
      (∃ s k, e = .notInSection s k) ∨ e = .multiKeyDict ∨
      e = .cardinalityMismatch ∨
      (e = .noCardinality ∧ cnt = none ∧ ∀ it ∈ items, ∃ s, it = .scalar s) := by
  intro items
  induction items with
  | nil =>
    intro ei cnt e h
    cases cnt with
    | none =>
      simp only [validateItems, Except.error.injEq] at h
      exact Or.inr (Or.inr (Or.inr ⟨h.symm, rfl, by simp⟩))
    | some c => simp [validateItems] at h
  | cons it rest ih =>
    intro ei cnt e h
    cases it with
    | scalar s =>
      simp only [validateItems] at h
      by_cases hs : sectionMem d (1 - ei) s
      · rw [if_pos hs] at h
        rcases ih _ _ _ h with h' | h' | h' | ⟨he, hc, hsc⟩
        · exact Or.inl h'
        · exact Or.inr (Or.inl h')
        · exact Or.inr (Or.inr (Or.inl h'))
        · refine Or.inr (Or.inr (Or.inr ⟨he, hc, fun x hx => ?_⟩))
          rcases List.mem_cons.mp hx with hx | hx
          · exact ⟨s, hx⟩
          · exact hsc x hx
      · rw [if_neg hs] at h
        simp only [Except.error.injEq] at h
        subst h
        exact Or.inl ⟨s, 1 - ei, rfl⟩
    | list ids =>
      simp only [validateItems] at h
      cases hf : ids.find? (fun s => !(sectionMem d (1 - ei) s)) with
      | some bad =>
        simp only [hf, Except.error.injEq] at h
        subst h
        exact Or.inl ⟨bad, 1 - ei, rfl⟩
      | none =>
        simp only [hf] at h
        have tail : ∀ cnt', validateItems d rest (1 - ei) (some cnt') = .error e →
            (∃ s k, e = .notInSection s k) ∨ e = .multiKeyDict ∨
            e = .cardinalityMismatch ∨
            (e = .noCardinality ∧ cnt = none ∧
              ∀ it ∈ (Item.list ids :: rest), ∃ s, it = .scalar s) := by
          intro cnt' h'
          rcases ih _ _ _ h' with h'' | h'' | h'' | ⟨_, hc, _⟩
          · exact Or.inl h''
          · exact Or.inr (Or.inl h'')
          · exact Or.inr (Or.inr (Or.inl h''))
          · cases hc
        cases cnt with
        | none =>
          simp only [] at h
          exact tail _ h
        | some c =>
          simp only [] at h
          by_cases hl : ids.length ≠ c
          · rw [if_pos hl] at h
            simp only [Except.error.injEq] at h
            subst h
            exact Or.inr (Or.inr (Or.inl rfl))
          · rw [if_neg hl] at h
            exact tail _ h
    | dict es =>
      match es with
      | [] =>
        simp only [validateItems, Except.error.injEq] at h
        subst h
        exact Or.inr (Or.inl rfl)
      | (k, v) :: (kv' :: tl) =>
        simp only [validateItems, Except.error.injEq] at h
        subst h
        exact Or.inr (Or.inl rfl)
      | [(k, v)] =>
        simp only [validateItems] at h
        have tail : ∀ cnt', validateItems d rest (1 - ei) (some cnt') = .error e →
            (∃ s k, e = .notInSection s k) ∨ e = .multiKeyDict ∨
            e = .cardinalityMismatch ∨
            (e = .noCardinality ∧ cnt = none ∧
              ∀ it ∈ (Item.dict [(k, v)] :: rest), ∃ s, it = .scalar s) := by
          intro cnt' h'
          rcases ih _ _ _ h' with h'' | h'' | h'' | ⟨_, hc, _⟩
          · exact Or.inl h''
          · exact Or.inr (Or.inl h'')
          · exact Or.inr (Or.inr (Or.inl h''))
          · cases hc
        by_cases hk : sectionMem d (1 - ei) k
        · rw [if_pos hk] at h
          cases cnt with
          | none =>
            simp only [] at h
            exact tail _ h
          | some c =>
            simp only [] at h
            by_cases hl : (expand v).length ≠ c
            · rw [if_pos hl] at h
              simp only [Except.error.injEq] at h
              subst h
              exact Or.inr (Or.inr (Or.inl rfl))
            · rw [if_neg hl] at h
              exact tail _ h
        · rw [if_neg hk] at h
          simp only [Except.error.injEq] at h
          subst h
          exact Or.inl ⟨k, 1 - ei, rfl⟩

/-! ### Populate- and emit-pass analysis -/

theorem instRepeat_len (d : Doc) (id : String) :
    ∀ (k : Nat) (st st' : ParseState) (slot : Slot),
      instRepeat d id k st = .ok (st', slot) → slot.length = k := by
  intro k
  induction k with
  | zero =>
    intro st st' slot h
    simp only [instRepeat, Except.ok.injEq, Prod.mk.injEq] at h
    rw [← h.2]
    rfl
  | succ k ih =>
    intro st st' slot h
    simp only [instRepeat] at h
    cases h1 : instOne d st id with
    | error e => simp only [h1] at h; exact absurd h (by simp)
    | ok res =>
      obtain ⟨st1, pr⟩ := res
      simp only [h1] at h
      cases h2 : instRepeat d id k st1 with
      | error e => simp only [h2] at h; exact absurd h (by simp)
      | ok res' =>
        obtain ⟨st2, rest⟩ := res'
        simp only [h2, Except.ok.injEq, Prod.mk.injEq] at h
        rw [← h.2]
        simp [ih st1 st2 rest h2]

theorem instList_len (d : Doc) :
    ∀ (ids : List String) (st st' : ParseState) (slot : Slot),
      instList d ids st = .ok (st', slot) → slot.length = ids.length := by
  intro ids
  induction ids with
  | nil =>
    intro st st' slot h
    simp only [instList, Except.ok.injEq, Prod.mk.injEq] at h
    rw [← h.2]
    rfl
  | cons id rest ih =>
    intro st st' slot h
    simp only [instList] at h
    cases h1 : instOne d st id with
    | error e => simp only [h1] at h; exact absurd h (by simp)
    | ok res =>
      obtain ⟨st1, pr⟩ := res
      simp only [h1] at h
      cases h2 : instList d rest st1 with
      | error e => simp only [h2] at h; exact absurd h (by simp)
      | ok res' =>
        obtain ⟨st2, tl⟩ := res'
        simp only [h2, Except.ok.injEq, Prod.mk.injEq] at h
        rw [← h.2]
        simp [ih st1 st2 tl h2]

theorem populateItem_len (d : Doc) (n : Nat) (st st' : ParseState) (it : Item) (slot : Slot)
    (h : populateItem d n st it = .ok (st', slot)) (hok : itemSlotOk n it) :
    slot.length = n := by
  cases it with
  | scalar id => exact instRepeat_len d id n st st' slot h
  | list ids => rw [instList_len d ids st st' slot h]; exact hok
  | dict es =>
    obtain ⟨k, v, hes, hlen⟩ := hok
    subst hes
    simp only [populateItem, List.head?, Except.ok.injEq, Prod.mk.injEq] at h
    rw [← h.2]
    simp [hlen]

theorem populateItems_len (d : Doc) (n : Nat) :
    ∀ (items : List Item) (st st' : ParseState) (cl : List Slot),
      populateItems d n items st = .ok (st', cl) →
      (∀ it ∈ items, itemSlotOk n it) →
      ∀ slot ∈ cl, slot.length = n := by
  intro items
  induction items with
  | nil =>
    intro st st' cl h _
    simp only [populateItems, Except.ok.injEq, Prod.mk.injEq] at h
    rw [← h.2]
    simp
  | cons it rest ih =>
    intro st st' cl h hall
    simp only [populateItems] at h
    cases h1 : populateItem d n st it with
    | error e => simp only [h1] at h; exact absurd h (by simp)
    | ok res =>
      obtain ⟨st1, slot1⟩ := res
      simp only [h1] at h
      cases h2 : populateItems d n rest st1 with
      | error e => simp only [h2] at h; exact absurd h (by simp)
      | ok res' =>
        obtain ⟨st2, cl'⟩ := res'
        simp only [h2, Except.ok.injEq, Prod.mk.injEq] at h
        rw [← h.2]
        intro slot hs
        rcases List.mem_cons.mp hs with hs | hs
        · subst hs
          exact populateItem_len d n st st1 it slot h1 (hall it (List.mem_cons_self _ _))
        · exact ih st1 st2 cl' h2 (fun x hx => hall x (List.mem_cons_of_mem _ hx)) slot hs

theorem emitPositions_len (cl : List Slot) (last i : Nat) :
    ∀ (slot : Slot) (j : Nat) (ls : List WireLink),
      emitPositions cl last i j slot = .ok ls → ls.length = slot.length := by
  intro slot
  induction slot with
  | nil =>
    intro j ls h
    simp only [emitPositions, Except.ok.injEq] at h
    rw [← h]
    rfl
  | cons vp rest ih =>
    intro j ls h
    simp only [emitPositions] at h
    cases h1 : mkLink cl last i j vp with
    | error e => simp only [h1] at h; exact absurd h (by simp)
    | ok l =>
      simp only [h1] at h
      cases h2 : emitPositions cl last i (j + 1) rest with
      | error e => simp only [h2] at h; exact absurd h (by simp)
      | ok ls' =>
        simp only [h2, Except.ok.injEq] at h
        rw [← h]
        simp [ih (j + 1) ls' h2]

theorem emitLoop_len (d : Doc) (cl : List Slot) (n : Nat) :
    ∀ (rest : List Slot) (i : Nat) (links : List WireLink),
      emitLoop d cl i rest = .ok links → (∀ slot ∈ rest, slot.length = n) →
      links.length = rest.countP (fun s => isCableSlot d s) * n := by
  intro rest
  induction rest with
  | nil =>
    intro i links h _
    simp only [emitLoop, Except.ok.injEq] at h
    rw [← h]
    simp
  | cons slot rest' ih =>
    intro i links h hlen
    simp only [emitLoop] at h
    cases h1 : slotStep d cl i slot with
    | error e => simp only [h1] at h; exact absurd h (by simp)
    | ok ls =>
      simp only [h1] at h
      cases h2 : emitLoop d cl (i + 1) rest' with
      | error e => simp only [h2] at h; exact absurd h (by simp)
      | ok more =>
        simp only [h2, Except.ok.injEq] at h
        rw [← h]
        have hmore := ih (i + 1) more h2 (fun s hs => hlen s (List.mem_cons_of_mem _ hs))
        simp only [slotStep] at h1
        cases hh : slot.head? with
        | none => simp only [hh] at h1; exact absurd h1 (by simp)
        | some pr =>
          simp only [hh] at h1
          by_cases hc : sectionMem d 1 pr.1
          · rw [if_pos hc] at h1
            have hls : ls.length = slot.length :=
              emitPositions_len cl (cl.length - 1) i slot 0 ls h1
            have hcable : isCableSlot d slot = true := by simp [isCableSlot, hh, hc]
            calc (ls ++ more).length = ls.length + more.length := List.length_append _ _
              _ = n + rest'.countP (fun s => isCableSlot d s) * n := by
                  rw [hls, hlen slot (List.mem_cons_self _ _), hmore]
              _ = (rest'.countP (fun s => isCableSlot d s) + 1) * n := by ring
              _ = (slot :: rest').countP (fun s => isCableSlot d s) * n := by
                  simp [List.countP_cons, hcable]
          · rw [if_neg hc] at h1
            simp only [Except.ok.injEq] at h1
            have hcable : isCableSlot d slot = false := by simp [isCableSlot, hh, hc]
            rw [← h1]
            simp [List.countP_cons, hcable, hmore]

theorem mkLink_shape (cl : List Slot) (last i j : Nat) (vp : String × Nat) (l : WireLink)
    (h : mkLink cl last i j vp = .ok l) :
    l.via_name = vp.1 ∧ l.via_pin = vp.2 ∧
    (i = 0 → l.from_name = none ∧ l.from_pin = none) ∧
    (i ≠ 0 → ∃ p, pairAt cl (i - 1) j = some p ∧
      l.from_name = some p.1 ∧ l.from_pin = some p.2) ∧
    (i = last → l.to_name = none ∧ l.to_pin = none) ∧
    (i ≠ last → ∃ p, pairAt cl (i + 1) j = some p ∧
      l.to_name = some p.1 ∧ l.to_pin = some p.2) := by
  unfold mkLink endpointAt at h
  by_cases h0 : i = 0 <;> by_cases hl : i = last
  · rw [if_pos h0, if_pos hl] at h
    simp only [Except.ok.injEq] at h
    rw [← h]
    exact ⟨rfl, rfl, fun _ => ⟨rfl, rfl⟩, fun hn => absurd h0 hn,
      fun _ => ⟨rfl, rfl⟩, fun hn => absurd hl hn⟩
  · rw [if_pos h0, if_neg hl] at h
    cases hp2 : pairAt cl (i + 1) j with
    | none =>
      simp only [hp2] at h
      exact absurd h (by simp)
    | some p2 =>
      simp only [hp2, Except.ok.injEq] at h
      rw [← h]
      exact ⟨rfl, rfl, fun _ => ⟨rfl, rfl⟩, fun hn => absurd h0 hn,
        fun hy => absurd hy hl, fun _ => ⟨p2, rfl, rfl, rfl⟩⟩
  · rw [if_neg h0, if_pos hl] at h
    cases hp1 : pairAt cl (i - 1) j with
    | none =>
      simp only [hp1] at h
      exact absurd h (by simp)
    | some p1 =>
      simp only [hp1, Except.ok.injEq] at h
      rw [← h]
      exact ⟨rfl, rfl, fun hy => absurd hy h0, fun _ => ⟨p1, rfl, rfl, rfl⟩,
        fun _ => ⟨rfl, rfl⟩, fun hn => absurd hl hn⟩
  · rw [if_neg h0, if_neg hl] at h
    cases hp1 : pairAt cl (i - 1) j with
    | none =>
      simp only [hp1] at h
      exact absurd h (by simp)
    | some p1 =>
      cases hp2 : pairAt cl (i + 1) j with
      | none =>
        simp only [hp1, hp2] at h
        exact absurd h (by simp)
      | some p2 =>
        simp only [hp1, hp2, Except.ok.injEq] at h
        rw [← h]
        exact ⟨rfl, rfl, fun hy => absurd hy h0, fun _ => ⟨p1, rfl, rfl, rfl⟩,
          fun hy => absurd hy hl, fun _ => ⟨p2, rfl, rfl, rfl⟩⟩

theorem emitPositions_get (cl : List Slot) (last i : Nat) :
    ∀ (slot : Slot) (j : Nat) (ls : List WireLink),
      emitPositions cl last i j slot = .ok ls →
      ∀ (q : Nat) (l : WireLink), ls.get? q = some l →
        ∃ vp, slot.get? q = some vp ∧ mkLink cl last i (j + q) vp = .ok l := by
  intro slot
  induction slot with
  | nil =>
    intro j ls h q l hq
    simp only [emitPositions, Except.ok.injEq] at h
    rw [← h] at hq
    simp at hq
  | cons vp0 rest ih =>
    intro j ls h q l hq
    simp only [emitPositions] at h
    cases h1 : mkLink cl last i j vp0 with
    | error e => simp only [h1] at h; exact absurd h (by simp)
    | ok l0 =>
      simp only [h1] at h
      cases h2 : emitPositions cl last i (j + 1) rest with
      | error e => simp only [h2] at h; exact absurd h (by simp)
      | ok ls' =>
        simp only [h2, Except.ok.injEq] at h
        rw [← h] at hq
        cases q with
        | zero =>
          have hl0 : l0 = l := by simpa using hq
          subst hl0
          exact ⟨vp0, rfl, by simpa using h1⟩
        | succ q' =>
          obtain ⟨vp, hvp, hmk⟩ := ih (j + 1) ls' h2 q' l (by simpa using hq)
          refine ⟨vp, hvp, ?_⟩
          have harith : j + (q' + 1) = (j + 1) + q' := by omega
          rw [harith]
          exact hmk

theorem emitLoop_slotStep (d : Doc) (cl : List Slot) :
    ∀ (rest : List Slot) (i : Nat) (links : List WireLink) (k : Nat) (slot : Slot),
      emitLoop d cl i rest = .ok links → rest.get? k = some slot →
      ∃ ls, slotStep d cl (i + k) slot = .ok ls ∧ ls.Sublist links := by
  intro rest
  induction rest with
  | nil => intro i links k slot h hk; simp at hk
  | cons s rest' ih =>
    intro i links k slot h hk
    simp only [emitLoop] at h
    cases h1 : slotStep d cl i s with
    | error e => simp only [h1] at h; exact absurd h (by simp)
    | ok ls =>
      simp only [h1] at h
      cases h2 : emitLoop d cl (i + 1) rest' with
      | error e => simp only [h2] at h; exact absurd h (by simp)
      | ok more =>
        simp only [h2, Except.ok.injEq] at h
        cases k with
        | zero =>
          have hs : s = slot := by simpa using hk
          subst hs
          refine ⟨ls, by simpa using h1, ?_⟩
          rw [← h]
          exact List.sublist_append_left ls more
        | succ k' =>
          have hk' : rest'.get? k' = some slot := by simpa using hk
          obtain ⟨ls', hstep, hsub⟩ := ih (i + 1) more k' slot h2 hk'
          refine ⟨ls', ?_, ?_⟩
          · have harith : i + (k' + 1) = (i + 1) + k' := by omega
            rw [harith]
            exact hstep
          · rw [← h]
            exact hsub.trans (List.sublist_append_right ls more)

/-! ### Decimal representations and autogenerated-id strings

The autogenerated ids are the strings `f'_{template}_{n}'`.  To show
that distinct (template, counter) pairs give distinct ids we prove
that `Nat.repr` is injective and produces no underscore, and that a
list with a separator occurring in neither suffix splits uniquely. -/

/-- The numeric value of a decimal digit character. -/
def digitVal (c : Char) : Nat := c.toNat - 48

/-- Read a digit string back into a number, most significant first. -/
def decodeDigits (l : List Char) : Nat :=
  l.foldl (fun a c => a * 10 + digitVal c) 0

theorem digitChar_ne_underscore : ∀ m, m < 10 → Nat.digitChar m ≠ '_' := by decide

theorem digitVal_digitChar : ∀ m, m < 10 → digitVal (Nat.digitChar m) = m := by decide

theorem toDigitsCore_append (b : Nat) :
    ∀ (fuel n : Nat) (ds : List Char),
      Nat.toDigitsCore b fuel n ds = Nat.toDigitsCore b fuel n [] ++ ds := by
  intro fuel
  induction fuel with
  | zero => intro n ds; simp [Nat.toDigitsCore]
  | succ fuel ih =>
    intro n ds
    simp only [Nat.toDigitsCore]
    by_cases h : n / b = 0
    · rw [if_pos h, if_pos h]
      rfl
    · rw [if_neg h, if_neg h]
      rw [ih (n / b) (Nat.digitChar (n % b) :: ds), ih (n / b) [Nat.digitChar (n % b)]]
      simp

theorem toDigitsCore_not_underscore :
    ∀ (fuel n : Nat) (ds : List Char),
      (∀ c ∈ ds, c ≠ '_') → ∀ c ∈ Nat.toDigitsCore 10 fuel n ds, c ≠ '_' := by
  intro fuel
  induction fuel with
  | zero => intro n ds hds; simpa [Nat.toDigitsCore] using hds
  | succ fuel ih =>
    intro n ds hds
    simp only [Nat.toDigitsCore]
    by_cases h : n / 10 = 0
    · rw [if_pos h]
      intro c hc
      rcases List.mem_cons.mp hc with hc | hc
      · subst hc; exact digitChar_ne_underscore _ (Nat.mod_lt _ (by norm_num))
      · exact hds c hc
    · rw [if_neg h]
      refine ih (n / 10) (Nat.digitChar (n % 10) :: ds) ?_
      intro c hc
      rcases List.mem_cons.mp hc with hc | hc
      · subst hc; exact digitChar_ne_underscore _ (Nat.mod_lt _ (by norm_num))
      · exact hds c hc

theorem decodeDigits_append (l1 l2 : List Char) :
    decodeDigits (l1 ++ l2) = l2.foldl (fun a c => a * 10 + digitVal c) (decodeDigits l1) := by
  simp [decodeDigits, List.foldl_append]

theorem decode_toDigitsCore :
    ∀ (fuel n : Nat), n < fuel → decodeDigits (Nat.toDigitsCore 10 fuel n []) = n := by
  intro fuel
  induction fuel with
  | zero => intro n h; omega
  | succ fuel ih =>
    intro n h
    simp only [Nat.toDigitsCore]
    by_cases h0 : n / 10 = 0
    · rw [if_pos h0]
      have hv := digitVal_digitChar (n % 10) (Nat.mod_lt _ (by norm_num))
      simp only [decodeDigits, List.foldl_cons, List.foldl_nil, Nat.zero_mul, Nat.zero_add]
      rw [hv]
      omega
    · rw [if_neg h0]
      rw [toDigitsCore_append 10 fuel (n / 10) [Nat.digitChar (n % 10)]]
      rw [decodeDigits_append]
      have hlt : n / 10 < fuel := by omega
      rw [ih (n / 10) hlt]
      have hv := digitVal_digitChar (n % 10) (Nat.mod_lt _ (by norm_num))
      simp only [List.foldl_cons, List.foldl_nil, hv]
      omega

theorem repr_data (n : Nat) :
    (Nat.repr n).data = Nat.toDigitsCore 10 (n + 1) n [] := rfl

theorem decode_repr (n : Nat) : decodeDigits (Nat.repr n).data = n := by
  rw [repr_data]
  exact decode_toDigitsCore (n + 1) n (Nat.lt_succ_self n)

theorem repr_injective {m n : Nat} (h : Nat.repr m = Nat.repr n) : m = n := by
  have hm := decode_repr m
  rw [h, decode_repr n] at hm
  exact hm.symm

theorem repr_no_underscore (n : Nat) : ∀ c ∈ (Nat.repr n).data, c ≠ '_' := by
  rw [repr_data]
  exact toDigitsCore_not_underscore (n + 1) n [] (by simp)

theorem append_sep_inj : ∀ (a b x y : List Char),
    (∀ c ∈ x, c ≠ '_') → (∀ c ∈ y, c ≠ '_') →
    a ++ '_' :: x = b ++ '_' :: y → a = b ∧ x = y := by
  intro a
  induction a with
  | nil =>
    intro b x y hx hy h
    cases b with
    | nil =>
      simp only [List.nil_append] at h
      exact ⟨rfl, List.cons.inj h |>.2⟩
    | cons c b' =>
      simp only [List.nil_append, List.cons_append] at h
      obtain ⟨h1, h2⟩ := List.cons.inj h
      exfalso
      have hmem : '_' ∈ x := by
        rw [h2]
        exact List.mem_append_right _ (List.mem_cons_self _ _)
      exact hx _ hmem rfl
  | cons c a' ih =>
    intro b x y hx hy h
    cases b with
    | nil =>
      simp only [List.cons_append, List.nil_append] at h
      obtain ⟨h1, h2⟩ := List.cons.inj h
      exfalso
      have hmem : '_' ∈ y := by
        rw [← h2]
        exact List.mem_append_right _ (List.mem_cons_self _ _)
      exact hy _ hmem rfl
    | cons c' b' =>
      simp only [List.cons_append] at h
      obtain ⟨h1, h2⟩ := List.cons.inj h
      obtain ⟨ha, hxy⟩ := ih b' x y hx hy h2
      subst h1
      rw [ha]
      exact ⟨rfl, hxy⟩

theorem data_append (s t : String) : (s ++ t).data = s.data ++ t.data := by
  cases s
  cases t
  rfl

theorem data_inj {s t : String} (h : s.data = t.data) : s = t := by
  cases s
  cases t
  cases h
  rfl

theorem autoId_inj (t1 t2 : String) (n1 n2 : Nat)
    (h : autoId t1 n1 = autoId t2 n2) : t1 = t2 ∧ n1 = n2 := by
  unfold autoId at h
  have h' := congrArg String.data h
  simp only [data_append, List.append_assoc] at h'
  have hd : ('_' :: t1.data) ++ '_' :: (Nat.repr n1).data =
      ('_' :: t2.data) ++ '_' :: (Nat.repr n2).data := by
    simpa using h'
  simp only [List.cons_append] at hd
  obtain ⟨-, hd⟩ := List.cons.inj hd
  obtain ⟨hdata, hrepr⟩ :=
    append_sep_inj t1.data t2.data (Nat.repr n1).data (Nat.repr n2).data
      (repr_no_underscore n1) (repr_no_underscore n2) hd
  exact ⟨data_inj hdata, repr_injective (data_inj hrepr)⟩

/-! ### The autogeneration counter invariant -/

/-- The autogeneration invariant: for each template, the counters of
the logged registrations are exactly `1, 2, …, k` in order, where `k`
is the current value of the `autogenerated_ids` entry. -/
def logOk (st : ParseState) : Prop :=
  ∀ t, (st.autoLog.filter (fun p => p.1 == t)).map Prod.snd =
    List.range' 1 (countGet st.counts t)

theorem logOk_init : logOk ⟨[], []⟩ := by
  intro t
  simp [countGet]

theorem instOne_logOk (d : Doc) (st st' : ParseState) (id : String) (pr : String × Nat)
    (h : instOne d st id = .ok (st', pr)) (hlog : logOk st) : logOk st' := by
  unfold instOne at h
  cases ha : attribsOf d id with
  | none => simp only [ha] at h; exact absurd h (by simp)
  | some auto =>
    simp only [ha] at h
    cases auto with
    | false =>
      simp only [Bool.false_eq_true, if_false, Except.ok.injEq, Prod.mk.injEq] at h
      rw [← h.1]
      exact hlog
    | true =>
      simp only [if_true, Except.ok.injEq, Prod.mk.injEq] at h
      rw [← h.1]
      intro t
      by_cases ht : id = t
      · subst ht
        have h1 : (([(id, countGet st.counts id + 1)] : List (String × Nat)).filter
            (fun p => p.1 == id)) = [(id, countGet st.counts id + 1)] := by simp
        have h2 : countGet ((id, countGet st.counts id + 1) :: st.counts) id =
            countGet st.counts id + 1 := by
          unfold countGet
          rw [List.find?_cons_of_pos _ (by simp)]
        simp only [List.filter_append, List.map_append, h1, h2, hlog id,
          List.range'_concat, List.map_cons, List.map_nil]
        simp [Nat.add_comm]
      · have h1 : (([(id, countGet st.counts id + 1)] : List (String × Nat)).filter
            (fun p => p.1 == t)) = [] := by simp [ht]
        have h2 : countGet ((id, countGet st.counts id + 1) :: st.counts) t =
            countGet st.counts t := by
          unfold countGet
          rw [List.find?_cons_of_neg _ (by simp [ht])]
        simp only [List.filter_append, List.map_append, h1, List.map_nil,
          List.append_nil, h2]
        exact hlog t

theorem instRepeat_logOk (d : Doc) (id : String) :
    ∀ (k : Nat) (st st' : ParseState) (slot : Slot),
      instRepeat d id k st = .ok (st', slot) → logOk st → logOk st' := by
  intro k
  induction k with
  | zero =>
    intro st st' slot h hlog
    simp only [instRepeat, Except.ok.injEq, Prod.mk.injEq] at h
    rw [← h.1]
    exact hlog
  | succ k ih =>
    intro st st' slot h hlog
    simp only [instRepeat] at h
    cases h1 : instOne d st id with
    | error e => simp only [h1] at h; exact absurd h (by simp)
    | ok res =>
      obtain ⟨st1, pr⟩ := res
      simp only [h1] at h
      cases h2 : instRepeat d id k st1 with
      | error e => simp only [h2] at h; exact absurd h (by simp)
      | ok res' =>
        obtain ⟨st2, rest⟩ := res'
        simp only [h2, Except.ok.injEq, Prod.mk.injEq] at h
        rw [← h.1]
        exact ih st1 st2 rest h2 (instOne_logOk d st st1 id pr h1 hlog)

theorem instList_logOk (d : Doc) :
    ∀ (ids : List String) (st st' : ParseState) (slot : Slot),
      instList d ids st = .ok (st', slot) → logOk st → logOk st' := by
  intro ids
  induction ids with
  | nil =>
    intro st st' slot h hlog
    simp only [instList, Except.ok.injEq, Prod.mk.injEq] at h
    rw [← h.1]
    exact hlog
  | cons id rest ih =>
    intro st st' slot h hlog
    simp only [instList] at h
    cases h1 : instOne d st id with
    | error e => simp only [h1] at h; exact absurd h (by simp)
    | ok res =>
      obtain ⟨st1, pr⟩ := res
      simp only [h1] at h
      cases h2 : instList d rest st1 with
      | error e => simp only [h2] at h; exact absurd h (by simp)
      | ok res' =>
        obtain ⟨st2, tl⟩ := res'
        simp only [h2, Except.ok.injEq, Prod.mk.injEq] at h
        rw [← h.1]
        exact ih st1 st2 tl h2 (instOne_logOk d st st1 id pr h1 hlog)

theorem populateItem_logOk (d : Doc) (n : Nat) (st st' : ParseState) (it : Item)
    (slot : Slot) (h : populateItem d n st it = .ok (st', slot)) (hlog : logOk st) :
    logOk st' := by
  cases it with
  | scalar id => exact instRepeat_logOk d id n st st' slot h hlog
  | list ids => exact instList_logOk d ids st st' slot h hlog
  | dict es =>
    simp only [populateItem] at h
    cases hh : es.head? with
    | none => simp only [hh] at h; exact absurd h (by simp)
    | some kv =>
      obtain ⟨k, v⟩ := kv
      simp only [hh, Except.ok.injEq, Prod.mk.injEq] at h
      rw [← h.1]
      exact hlog

theorem populateItems_logOk (d : Doc) (n : Nat) :
    ∀ (items : List Item) (st st' : ParseState) (cl : List Slot),
      populateItems d n items st = .ok (st', cl) → logOk st → logOk st' := by
  intro items
  induction items with
  | nil =>
    intro st st' cl h hlog
    simp only [populateItems, Except.ok.injEq, Prod.mk.injEq] at h
    rw [← h.1]
    exact hlog
  | cons it rest ih =>
    intro st st' cl h hlog
    simp only [populateItems] at h
    cases h1 : populateItem d n st it with
    | error e => simp only [h1] at h; exact absurd h (by simp)
    | ok res =>
      obtain ⟨st1, slot1⟩ := res
      simp only [h1] at h
      cases h2 : populateItems d n rest st1 with
      | error e => simp only [h2] at h; exact absurd h (by simp)
      | ok res' =>
        obtain ⟨st2, cl'⟩ := res'
        simp only [h2, Except.ok.injEq, Prod.mk.injEq] at h
        rw [← h.1]
        exact ih st1 st2 cl' h2 (populateItem_logOk d n st st1 it slot1 h1 hlog)

theorem processRow_logOk (d : Doc) (st st' : ParseState) (row : List Item)
    (links : List WireLink) (h : processRow d st row = .ok (st', links))
    (hlog : logOk st) : logOk st' := by
  unfold processRow at h
  cases hv : validateRow d row with
  | error e => simp only [hv] at h; exact absurd h (by simp)
  | ok n =>
    simp only [hv] at h
    cases hp : populateItems d n row st with
    | error e => simp only [hp] at h; exact absurd h (by simp)
    | ok res =>
      obtain ⟨st1, cl⟩ := res
      simp only [hp] at h
      cases he : emitAll d cl with
      | error e => simp only [he] at h; exact absurd h (by simp)
      | ok links' =>
        simp only [he, Except.ok.injEq, Prod.mk.injEq] at h
        rw [← h.1]
        exact populateItems_logOk d n row st st1 cl hp hlog

theorem processConnections_logOk (d : Doc) :
    ∀ (rows : List (List Item)) (st st' : ParseState) (links : List WireLink),
      processConnections d st rows = .ok (st', links) → logOk st → logOk st' := by
  intro rows
  induction rows with
  | nil =>
    intro st st' links h hlog
    simp only [processConnections, Except.ok.injEq, Prod.mk.injEq] at h
    rw [← h.1]
    exact hlog
  | cons row rest ih =>
    intro st st' links h hlog
    simp only [processConnections] at h
    cases h1 : processRow d st row with
    | error e => simp only [h1] at h; exact absurd h (by simp)
    | ok res =>
      obtain ⟨st1, links1⟩ := res
      simp only [h1] at h
      cases h2 : processConnections d st1 rest with
      | error e => simp only [h2] at h; exact absurd h (by simp)
      | ok res' =>
        obtain ⟨st2, more⟩ := res'
        simp only [h2, Except.ok.injEq, Prod.mk.injEq] at h
        rw [← h.1]
        exact ih st1 st2 more h2 (processRow_logOk d st st1 row links1 h1 hlog)

theorem parseDoc_logOk (d : Doc) (st : ParseState) (links : List WireLink)
    (h : parseDoc d = .ok (st, links)) : logOk st :=
  processConnections_logOk d d.connections ⟨[], []⟩ st links h logOk_init

/-- A list of pairs is duplicate-free as soon as, for every key, the
values sitting at that key are duplicate-free. -/
theorem nodup_of_fiberwise :
    ∀ (l : List (String × Nat)),
      (∀ t, ((l.filter (fun p => p.1 == t)).map Prod.snd).Nodup) → l.Nodup := by
  intro l
  induction l with
  | nil => intro _; exact List.nodup_nil
  | cons p tl ih =>
    intro hf
    have hself := hf p.1
    rw [List.filter_cons_of_pos (by simp)] at hself
    simp only [List.map_cons] at hself
    rw [List.nodup_cons] at hself
    refine List.nodup_cons.mpr ⟨?_, ih ?_⟩
    · intro hmem
      exact hself.1 (List.mem_map.mpr ⟨p, List.mem_filter.mpr ⟨hmem, by simp⟩, rfl⟩)
    · intro t
      have h1 := hf t
      by_cases hp : p.1 = t
      · rw [List.filter_cons_of_pos (by simp [hp])] at h1
        simp only [List.map_cons] at h1
        exact (List.nodup_cons.mp h1).2
      · rw [List.filter_cons_of_neg (by simp [hp])] at h1
        exact h1

theorem validateRow_ok_items (d : Doc) (row : List Item) (n : Nat)
    (hv : validateRow d row = .ok n) : ∀ it ∈ row, itemSlotOk n it := by
  rcases validateRow_cases d row with ⟨idx, hval⟩ | hval | hval
  · exact (validateItems_ok d row (1 - idx) none n (hval.symm.trans hv)).2
  · rw [hv] at hval; exact absurd hval (by simp)
  · rw [hv] at hval; exact absurd hval (by simp)

/-! ### Example documents used by concrete theorems and witnesses -/

/-- Connectors `X`, `Y`; cable `W` (the document of claim C1). -/
def exDocXYW : Doc := ⟨[("X", false), ("Y", false)], ["W"], []⟩

/-- Connector `X`; cable `W`. -/
def exDoc6 : Doc := ⟨[("X", false)], ["W"], []⟩

/-- Connector `B`; cable `A` (for the alternation-inference rows). -/
def exDocC2 : Doc := ⟨[("B", false)], ["A"], []⟩

/-- Connectors `A`, `B`, `C`; no cables. -/
def exDoc4 : Doc := ⟨[("A", false), ("B", false), ("C", false)], [], []⟩

/-- The id `Z` declared both as a connector and as a cable. -/
def exDocBoth : Doc := ⟨[("Z", false)], ["Z"], []⟩

/-- Connector `Y`; cables `a`, `b`, `c`. -/
def exDoc5 : Doc := ⟨[("Y", false)], ["a", "b", "c"], []⟩

/-- The empty autogeneration state of line 80. -/
def st0 : ParseState := ⟨[], []⟩

/-- The row `[[X, X], {W: "1-2"}, {Y: "1-2"}]`. -/
def exRow2 : List Item :=
  [.list ["X", "X"], .dict [("W", [.range 1 2])], .dict [("Y", [.range 1 2])]]

/-- The slot sequence the populate step builds for `exRow2`. -/
def exSlots2 : List Slot :=
  [[("X", 1), ("X", 1)], [("W", 1), ("W", 2)], [("Y", 1), ("Y", 2)]]

/-- The links the emit step produces for `exSlots2`. -/
def exLinks2 : List WireLink :=
  [⟨some "X", some 1, "W", 1, some "Y", some 1⟩,
   ⟨some "X", some 1, "W", 2, some "Y", some 2⟩]

/-- The row `[{W: "1-2"}, {X: "1-2"}]`, starting with a cable. -/
def exRow9 : List Item :=
  [.dict [("W", [.range 1 2])], .dict [("X", [.range 1 2])]]

/-- The slot sequence the populate step builds for `exRow9`. -/
def exSlots9 : List Slot :=
  [[("W", 1), ("W", 2)], [("X", 1), ("X", 2)]]

/-- The links the emit step produces for `exSlots9`. -/
def exLinks9 : List WireLink :=
  [⟨none, none, "W", 1, some "X", some 1⟩,
   ⟨none, none, "W", 2, some "X", some 2⟩]

/-- A document whose connector template `F` has `autogenerate` set and
is used by two rows (`[F, {W: 1}, {X: 1}]` twice). -/
def exDocAuto : Doc :=
  ⟨[("F", true), ("X", false)], ["W"],
   [[.scalar "F", .dict [("W", [.single 1])], .dict [("X", [.single 1])]],
    [.scalar "F", .dict [("W", [.single 1])], .dict [("X", [.single 1])]]]⟩

/-- The final autogeneration state after parsing `exDocAuto`. -/
def exStAuto : ParseState := ⟨[("F", 2), ("F", 1)], [("F", 1), ("F", 2)]⟩

/-- The links emitted for `exDocAuto`: fresh instances `_F_1`, `_F_2`. -/
def exLinksAuto : List WireLink :=
  [⟨some "_F_1", some 1, "W", 1, some "X", some 1⟩,
   ⟨some "_F_2", some 1, "W", 1, some "X", some 1⟩]

/-! ### Claims -/

/-- Claim C1, as stated, is false: in the populate step (lines
132-141) every bare scalar item is looked up in
`yaml_data['connectors']`, so the scalar cable `W` of the row
`[[X, X], W, {Y: "1-2"}]` raises a Python KeyError before any link is
emitted, instead of the row succeeding. -/
theorem c1_counterexample :
    processRow exDocXYW st0
      [.list ["X", "X"], .scalar "W", .dict [("Y", [.range 1 2])]] =
      .error (.keyError "W") := rfl

/-- Claim C1 amended: with the cable written as the one-key mapping
`{W: "1-2"}` (a bare scalar cable crashes, see the counterexample),
the row `[[X, X], {W: "1-2"}, {Y: "1-2"}]` succeeds with cardinality 2
and emits exactly the two WireLinks (X,1)-W,1-(Y,1) and
(X,1)-W,2-(Y,2), the two `X` entries being the two list elements, each
at pin 1. -/
theorem c1_amended_theorem :
    validateRow exDocXYW
      [.list ["X", "X"], .dict [("W", [.range 1 2])], .dict [("Y", [.range 1 2])]] =
      .ok 2 ∧
    processRow exDocXYW st0
      [.list ["X", "X"], .dict [("W", [.range 1 2])], .dict [("Y", [.range 1 2])]] =
      .ok (st0,
        [⟨some "X", some 1, "W", 1, some "Y", some 1⟩,
         ⟨some "X", some 1, "W", 2, some "Y", some 2⟩]) :=
  ⟨rfl, rfl⟩

/-- Claim C2, as stated, is false: a row of two bare scalars — here
`[A, B]` with `A` a declared cable and `B` a declared connector —
passes role alternation but reveals no cardinality, so it is *not*
processed successfully: both orders fail with the
`'No item revealed the number of connections to make!'` error. -/
theorem c2_counterexample :
    processRow exDocC2 st0 [.scalar "A", .scalar "B"] = .error .noCardinality ∧
    processRow exDocC2 st0 [.scalar "B", .scalar "A"] = .error .noCardinality :=
  ⟨rfl, rfl⟩

/-- Claim C2 amended: for `cableA` declared as a cable (and not also as
a connector) and `connB` a declared connector, the rows
`[cableA, connB]` and `[connB, cableA]` infer opposite starting roles
from their first item and pass role-alternation validation, but
neither is processed successfully: both consist solely of bare scalars
and fail with the no-cardinality-revealed error. -/
theorem c2_theorem (d : Doc) (st : ParseState) (ca cb : String)
    (h1 : sectionMem d 1 ca = true) (h2 : sectionMem d 0 ca = false)
    (h3 : sectionMem d 0 cb = true) :
    inferStart d ca = .ok 1 ∧ inferStart d cb = .ok 0 ∧
    processRow d st [.scalar ca, .scalar cb] = .error .noCardinality ∧
    processRow d st [.scalar cb, .scalar ca] = .error .noCardinality := by
  refine ⟨?_, ?_, ?_, ?_⟩ <;>
    simp [inferStart, processRow, validateRow, itemFirstId, validateItems, h1, h2, h3]

/-- Witness for claim C2's amended theorem at the concrete document
with cable `A` and connector `B`. -/
theorem c2_witness :
    (sectionMem exDocC2 1 "A" = true ∧ sectionMem exDocC2 0 "A" = false ∧
      sectionMem exDocC2 0 "B" = true) ∧
    (inferStart exDocC2 "A" = .ok 1 ∧ inferStart exDocC2 "B" = .ok 0 ∧
      processRow exDocC2 st0 [.scalar "A", .scalar "B"] = .error .noCardinality ∧
      processRow exDocC2 st0 [.scalar "B", .scalar "A"] = .error .noCardinality) :=
  ⟨⟨rfl, rfl, rfl⟩, c2_theorem exDocC2 st0 "A" "B" rfl rfl rfl⟩

/-- Claim C3: row processing is validate-then-populate-then-emit; when
any step of row validation fails, the row's processing stops with that
error and no WireLink of the row is emitted (links exist only in the
`.ok` result of `processRow`). -/
theorem c3_theorem (d : Doc) (st : ParseState) (row : List Item) (e : Err)
    (h : validateRow d row = .error e) : processRow d st row = .error e := by
  unfold processRow
  rw [h]

/-- Witness for claim C3: a single-scalar row fails validation with the
no-cardinality error, and processing the row yields exactly that error
(zero links). -/
theorem c3_witness :
    validateRow exDoc6 [.scalar "X"] = .error .noCardinality ∧
    processRow exDoc6 st0 [.scalar "X"] = .error .noCardinality :=
  ⟨rfl, c3_theorem exDoc6 st0 [.scalar "X"] .noCardinality rfl⟩

/-- Claim C4: a row `[A, B, C]` of three declared connectors where `B`
is not a cable fails role alternation: position 1 expects the cables
section, and the loop raises `'B is not in cables'`. -/
theorem c4_theorem (d : Doc) (st : ParseState) (a b c : String)
    (hA : sectionMem d 0 a = true) (hB : sectionMem d 0 b = true)
    (hC : sectionMem d 0 c = true) (hBc : sectionMem d 1 b = false) :
    processRow d st [.scalar a, .scalar b, .scalar c] =
      .error (.notInSection b 1) := by
  simp [processRow, validateRow, itemFirstId, inferStart, validateItems, hA, hB, hBc]

/-- Witness for claim C4 at the concrete document declaring connectors
`A`, `B`, `C` and no cables. -/
theorem c4_witness :
    (sectionMem exDoc4 0 "A" = true ∧ sectionMem exDoc4 0 "B" = true ∧
      sectionMem exDoc4 0 "C" = true ∧ sectionMem exDoc4 1 "B" = false) ∧
    processRow exDoc4 st0 [.scalar "A", .scalar "B", .scalar "C"] =
      .error (.notInSection "B" 1) :=
  ⟨⟨rfl, rfl, rfl, rfl⟩, c4_theorem exDoc4 st0 "A" "B" "C" rfl rfl rfl rfl⟩

/-- Claim C5: within one row, success of the validation loop forces
every list or mapping item's contribution to equal the final
cardinality, so two items with different contributions make the row
fail; when the failure is not one of the earlier per-item errors
(empty row, unclassifiable first item, membership violation,
multi-key mapping), it is exactly the cardinality-mismatch error. -/
theorem c5_theorem (d : Doc) (st : ParseState) (row : List Item)
    (i j : Nat) (iti itj : Item) (a b : Nat)
    (hi : row.get? i = some iti) (hj : row.get? j = some itj)
    (hca : contribution iti = some a) (hcb : contribution itj = some b)
    (hab : a ≠ b)
    (h1 : validateRow d row ≠ .error .indexError)
    (h2 : validateRow d row ≠ .error .firstItemNotFound)
    (h3 : ∀ s k, validateRow d row ≠ .error (.notInSection s k))
    (h4 : validateRow d row ≠ .error .multiKeyDict) :
    validateRow d row = .error .cardinalityMismatch ∧
    processRow d st row = .error .cardinalityMismatch := by
  have hv : validateRow d row = .error .cardinalityMismatch := by
    rcases validateRow_cases d row with ⟨idx, hval⟩ | hval | hval
    · cases hres : validateItems d row (1 - idx) none with
      | ok n =>
        obtain ⟨-, hall⟩ := validateItems_ok d row (1 - idx) none n hres
        have ha := contribution_eq (hall iti (List.get?_mem hi)) hca
        have hb := contribution_eq (hall itj (List.get?_mem hj)) hcb
        exact absurd (ha.trans hb.symm) hab
      | error e =>
        rcases validateItems_error_cases d row (1 - idx) none e hres with
          ⟨s, k, he⟩ | he | he | ⟨he, -, hsc⟩
        · subst he; exact absurd (hval.trans hres) (h3 s k)
        · subst he; exact absurd (hval.trans hres) h4
        · subst he; exact hval.trans hres
        · obtain ⟨s, hs⟩ := hsc iti (List.get?_mem hi)
          subst hs
          simp [contribution] at hca
    · exact absurd hval h1
    · exact absurd hval h2
  refine ⟨hv, ?_⟩
  unfold processRow
  rw [hv]

/-- Witness for claim C5: a row mixing a 2-pin mapping item with a
3-element list item fails with the cardinality-mismatch error. -/
theorem c5_witness :
    (([Item.dict [("Y", [.range 1 2])], Item.list ["a", "b", "c"]].get? 0 =
        some (Item.dict [("Y", [.range 1 2])]) ∧
      [Item.dict [("Y", [.range 1 2])], Item.list ["a", "b", "c"]].get? 1 =
        some (Item.list ["a", "b", "c"]) ∧
      contribution (Item.dict [("Y", [.range 1 2])]) = some 2 ∧
      contribution (Item.list ["a", "b", "c"]) = some 3 ∧ 2 ≠ 3) ∧
     validateRow exDoc5 [Item.dict [("Y", [.range 1 2])], Item.list ["a", "b", "c"]] ≠
       .error .indexError) ∧
    (validateRow exDoc5 [Item.dict [("Y", [.range 1 2])], Item.list ["a", "b", "c"]] =
        .error .cardinalityMismatch ∧
      processRow exDoc5 st0 [Item.dict [("Y", [.range 1 2])], Item.list ["a", "b", "c"]] =
        .error .cardinalityMismatch) := by
  have hval : validateRow exDoc5
      [Item.dict [("Y", [.range 1 2])], Item.list ["a", "b", "c"]] =
      .error .cardinalityMismatch := rfl
  refine ⟨⟨⟨rfl, rfl, rfl, rfl, by decide⟩, by simp [hval]⟩, ?_⟩
  exact c5_theorem exDoc5 st0 _ 0 1 _ _ 2 3 rfl rfl rfl rfl (by decide)
    (by simp [hval]) (by simp [hval]) (fun s k => by simp [hval]) (by simp [hval])

/-- Claim C6: a row all of whose items are bare scalars never reveals a
cardinality, so — provided it does not fail earlier on the empty-row
check, first-item classification, or a membership check — its
validation ends with the no-cardinality error and the row's processing
fails with exactly that error. -/
theorem c6_theorem (d : Doc) (st : ParseState) (row : List Item)
    (hs : ∀ it ∈ row, ∃ s, it = .scalar s)
    (h1 : validateRow d row ≠ .error .indexError)
    (h2 : validateRow d row ≠ .error .firstItemNotFound)
    (h3 : ∀ s k, validateRow d row ≠ .error (.notInSection s k)) :
    validateRow d row = .error .noCardinality ∧
    processRow d st row = .error .noCardinality := by
  have hv : validateRow d row = .error .noCardinality := by
    rcases validateRow_cases d row with ⟨idx, hval⟩ | hval | hval
    · rcases validateItems_all_scalar d row (1 - idx) hs with hcase | ⟨s, k, hcase⟩
      · exact hval.trans hcase
      · exact absurd (hval.trans hcase) (h3 s k)
    · exact absurd hval h1
    · exact absurd hval h2
  refine ⟨hv, ?_⟩
  unfold processRow
  rw [hv]

/-- Witness for claim C6: the all-scalar row `[X, W]` (connector `X`,
cable `W`) passes all per-item role checks and fails with the
no-cardinality error. -/
theorem c6_witness :
    ((∀ it ∈ [Item.scalar "X", Item.scalar "W"], ∃ s, it = Item.scalar s) ∧
      validateRow exDoc6 [Item.scalar "X", Item.scalar "W"] ≠ .error .indexError ∧
      (∀ s k, validateRow exDoc6 [Item.scalar "X", Item.scalar "W"] ≠
        .error (.notInSection s k))) ∧
    (validateRow exDoc6 [Item.scalar "X", Item.scalar "W"] = .error .noCardinality ∧
      processRow exDoc6 st0 [Item.scalar "X", Item.scalar "W"] = .error .noCardinality) := by
  have hval : validateRow exDoc6 [Item.scalar "X", Item.scalar "W"] =
      .error .noCardinality := rfl
  refine ⟨⟨by simp, by simp [hval], fun s k => by simp [hval]⟩, ?_⟩
  exact c6_theorem exDoc6 st0 _ (by simp) (by simp [hval]) (by simp [hval])
    (fun s k => by simp [hval])

/-- Claim C10: role inference tries the connectors section before the
cables section (lines 92-96), so an id declared in both sections is
always classified as a connector: `inferStart` returns index 0, and
any row whose first item unwraps to that id runs its validation with
the starting expected index of a connector (the loop argument `1`
that flips back to 0 at the first item). -/
theorem c10_theorem (d : Doc) (id : String)
    (h0 : sectionMem d 0 id = true) (h1 : sectionMem d 1 id = true) :
    inferStart d id = .ok 0 ∧
    ∀ (row : List Item) (first : Item), row.head? = some first →
      itemFirstId first = .ok id →
      validateRow d row = validateItems d row 1 none := by
  constructor
  · simp [inferStart, h0]
  · intro row first hh hf
    simp [validateRow, hh, hf, inferStart, h0]

/-- Witness for claim C10 at a document declaring `Z` both as a
connector and as a cable. -/
theorem c10_witness :
    (sectionMem exDocBoth 0 "Z" = true ∧ sectionMem exDocBoth 1 "Z" = true) ∧
    (inferStart exDocBoth "Z" = .ok 0 ∧
      ∀ (row : List Item) (first : Item), row.head? = some first →
        itemFirstId first = .ok "Z" →
        validateRow exDocBoth row = validateItems exDocBoth row 1 none) :=
  ⟨⟨rfl, rfl⟩, c10_theorem exDocBoth "Z" rfl rfl⟩


/-- Claim C8: for a successfully processed row (validation gives
cardinality `n`, populate builds the slot list `cl`, emission
succeeds), the number of emitted links equals the number of slots
whose component is a cable times `n`; connector slots emit nothing
themselves. -/
theorem c8_theorem (d : Doc) (st st' : ParseState) (row : List Item) (n : Nat)
    (cl : List Slot) (links : List WireLink)
    (hv : validateRow d row = .ok n)
    (hp : populateItems d n row st = .ok (st', cl))
    (he : emitAll d cl = .ok links) :
    links.length = cl.countP (fun s => isCableSlot d s) * n := by
  have hslots : ∀ slot ∈ cl, slot.length = n :=
    populateItems_len d n row st st' cl hp (validateRow_ok_items d row n hv)
  exact emitLoop_len d cl n cl 0 links he hslots

/-- Witness for claim C8: the row `[[X, X], {W: "1-2"}, {Y: "1-2"}]`
has one cable slot, cardinality 2, and exactly 1 × 2 emitted links. -/
theorem c8_witness :
    (validateRow exDocXYW exRow2 = .ok 2 ∧
      populateItems exDocXYW 2 exRow2 st0 = .ok (st0, exSlots2) ∧
      emitAll exDocXYW exSlots2 = .ok exLinks2) ∧
    exLinks2.length = exSlots2.countP (fun s => isCableSlot exDocXYW s) * 2 :=
  ⟨⟨rfl, rfl, rfl⟩, c8_theorem exDocXYW st0 st0 exRow2 2 exSlots2 exLinks2 rfl rfl rfl⟩

/-- Claim C9: in a successfully processed row, the links emitted from
slot `i` have `from = None` exactly when `i = 0` and otherwise take
`from` from position `j` of slot `i-1`; symmetrically `to = None`
exactly when `i` is the last index and otherwise `to` comes from
position `j` of slot `i+1`.  Connector slots emit nothing (their `ls`
is empty), so the statement is about cable slots. -/
theorem c9_theorem (d : Doc) (st st' : ParseState) (row : List Item) (n : Nat)
    (cl : List Slot) (links : List WireLink)
    (hv : validateRow d row = .ok n)
    (hp : populateItems d n row st = .ok (st', cl))
    (he : emitAll d cl = .ok links) :
    ∀ (i : Nat) (slot : Slot), cl.get? i = some slot →
      ∃ ls, slotStep d cl i slot = .ok ls ∧ ls.Sublist links ∧
        ∀ (j : Nat) (l : WireLink), ls.get? j = some l →
          (i = 0 → l.from_name = none ∧ l.from_pin = none) ∧
          (i ≠ 0 → ∃ p, pairAt cl (i - 1) j = some p ∧
            l.from_name = some p.1 ∧ l.from_pin = some p.2) ∧
          (i = cl.length - 1 → l.to_name = none ∧ l.to_pin = none) ∧
          (i ≠ cl.length - 1 → ∃ p, pairAt cl (i + 1) j = some p ∧
            l.to_name = some p.1 ∧ l.to_pin = some p.2) := by
  intro i slot hi
  obtain ⟨ls, hstep, hsub⟩ := emitLoop_slotStep d cl cl 0 links i slot he hi
  rw [Nat.zero_add] at hstep
  refine ⟨ls, hstep, hsub, ?_⟩
  intro j l hj
  unfold slotStep at hstep
  cases hh : slot.head? with
  | none =>
    simp only [hh] at hstep
    exact absurd hstep (by simp)
  | some pr =>
    simp only [hh] at hstep
    by_cases hc : sectionMem d 1 pr.1
    · rw [if_pos hc] at hstep
      obtain ⟨vp, hvp, hmk⟩ :=
        emitPositions_get cl (cl.length - 1) i slot 0 ls hstep j l hj
      rw [Nat.zero_add] at hmk
      obtain ⟨-, -, hf0, hfn, ht0, htn⟩ := mkLink_shape cl (cl.length - 1) i j vp l hmk
      exact ⟨hf0, hfn, ht0, htn⟩
    · rw [if_neg hc] at hstep
      simp only [Except.ok.injEq] at hstep
      rw [← hstep] at hj
      simp at hj

/-- Witness for claim C9: the row `[{W: "1-2"}, {X: "1-2"}]` starts
with a cable, and its slot-0 links carry `from = None`. -/
theorem c9_witness :
    (validateRow exDoc6 exRow9 = .ok 2 ∧
      populateItems exDoc6 2 exRow9 st0 = .ok (st0, exSlots9) ∧
      emitAll exDoc6 exSlots9 = .ok exLinks9) ∧
    (∀ (i : Nat) (slot : Slot), exSlots9.get? i = some slot →
      ∃ ls, slotStep exDoc6 exSlots9 i slot = .ok ls ∧ ls.Sublist exLinks9 ∧
        ∀ (j : Nat) (l : WireLink), ls.get? j = some l →
          (i = 0 → l.from_name = none ∧ l.from_pin = none) ∧
          (i ≠ 0 → ∃ p, pairAt exSlots9 (i - 1) j = some p ∧
            l.from_name = some p.1 ∧ l.from_pin = some p.2) ∧
          (i = exSlots9.length - 1 → l.to_name = none ∧ l.to_pin = none) ∧
          (i ≠ exSlots9.length - 1 → ∃ p, pairAt exSlots9 (i + 1) j = some p ∧
            l.to_name = some p.1 ∧ l.to_pin = some p.2)) :=
  ⟨⟨rfl, rfl, rfl⟩, c9_theorem exDoc6 st0 st0 exRow9 2 exSlots9 exLinks9 rfl rfl rfl⟩


/-- Claim C7: the `autogenerated_ids` counter is shared across all rows
of one document parse and never resets.  After a successful parse, for
every template `t` the logged registrations for `t` (each standing for
one `harness.add_connector` call with id `_<t>_<n>`) carry the
counters `1, 2, …, k` in creation order, where `k` is the final
counter value — each instance incremented the counter by exactly one,
starting at 1, counting all instances of that template in the
document.  Consequently all generated ids `autoId t n = "_" ++ t ++
"_" ++ Nat.repr n` are pairwise distinct. -/
theorem c7_theorem (d : Doc) (st : ParseState) (links : List WireLink)
    (h : parseDoc d = .ok (st, links)) :
    (∀ t, (st.autoLog.filter (fun p => p.1 == t)).map Prod.snd =
      List.range' 1 (countGet st.counts t)) ∧
    (st.autoLog.map (fun p => autoId p.1 p.2)).Nodup := by
  have hlog : logOk st := parseDoc_logOk d st links h
  refine ⟨hlog, ?_⟩
  have hnodup : st.autoLog.Nodup := by
    apply nodup_of_fiberwise
    intro t
    rw [hlog t]
    exact List.nodup_range' _ _
  have hinj : Function.Injective (fun p : String × Nat => autoId p.1 p.2) := by
    intro p q hpq
    obtain ⟨h1, h2⟩ := autoId_inj p.1 q.1 p.2 q.2 hpq
    obtain ⟨p1, p2⟩ := p
    obtain ⟨q1, q2⟩ := q
    cases h1
    cases h2
    rfl
  exact hnodup.map hinj

/-- Witness for claim C7: parsing `exDocAuto` registers `_F_1` in the
first row and `_F_2` in the second, with the counter at 2. -/
theorem c7_witness :
    parseDoc exDocAuto = .ok (exStAuto, exLinksAuto) ∧
    ((∀ t, (exStAuto.autoLog.filter (fun p => p.1 == t)).map Prod.snd =
        List.range' 1 (countGet exStAuto.counts t)) ∧
      (exStAuto.autoLog.map (fun p => autoId p.1 p.2)).Nodup) :=
  ⟨rfl, c7_theorem exDocAuto exStAuto exLinksAuto rfl⟩

end Wireviz
